import Mathlib

/-! poncaplot: `DataManager` (src/dataManager.h)

A shallow embedding of the `DataManager` facade: the point container, the
k-d tree rebuild with its post-update hook, the catalog of drawing passes and
the typed dispatch `processPass`.

Conventions of the embedding.

* `nanogui::Vector3f` is a record of three scalars; the scalar type `F` is a
  parameter, since none of the embedded operations computes with it.
* `Ponca::KdTreeDenseBase` is an external library type: the tree type `Tree`
  and its two member functions used here (`clear`, `build`) are parameters,
  collected in `KdTreeOps`. The instance `kdTree` gives them the behaviour
  the specification describes, on a tree represented by the points it holds.
* The constructor is defined outside the header; `new` models it, and `run`
  replays a sequence of calls on the state it leaves.
* A `std::function<void()>` and the functor handed to `processPass` are
  effectful closures. Their effect is a transformer of the program state
  outside the `DataManager`, of type `W`. The hook may read the container and
  the tree (through the const accessors) and may rewrite the container
  (through the mutable accessor `getPointContainer()`); `m_tree` and
  `m_updateFunction` are private and a hook reaches them only by re-entering
  `updateKdTree` or by replacing the running closure, which are left out.
* `DrawingPass*` is an optional object carrying its dynamic type;
  `dynamic_cast` consults that tag. The class hierarchy of the twelve
  concrete passes lives in headers outside this file and is a parameter.
-/

namespace DataManager

/-! ## Points and the external k-d tree -/

/-- The record `nanogui::Vector3f`: the container stores x, y and the normal
angle in radians, in that order. -/
structure Vector3f (F : Type) where
  x : F
  y : F
  z : F
deriving DecidableEq, Repr

/-- The alias `PointContainer = std::vector<nanogui::Vector3f>`. -/
abbrev PointContainer (F : Type) := List (Vector3f F)

/-- The two member functions of the external `KdTree` that `updateKdTree`
calls; each maps the tree before the call to the tree after it. -/
structure KdTreeOps (F Tree : Type) where
  clear : Tree → Tree
  build : Tree → PointContainer F → Tree

/-- Modelled from the spec: the class `Ponca::KdTreeDenseBase` behind the
alias `KdTree` belongs to a library outside the source. Sections 3 and 4.2:
the index is a structure derived from the point container, with an explicit
empty state. It is represented by the points it holds. -/
structure KdTree (F : Type) where
  points : PointContainer F
deriving DecidableEq, Repr

/-- Modelled from the spec: the member `clear()` of the library class, which
is outside the source. Section 4.2: the index goes to its explicit empty
state. -/
def KdTree.clear {F : Type} (_tree : KdTree F) : KdTree F :=
  { points := [] }

/-- Modelled from the spec: the member `build(points)` of the library class,
which is outside the source. Sections 3 and 4.2: the index is fully
reconstructed from the container it is given, discarding any previous
structure. -/
def KdTree.build {F : Type} (_tree : KdTree F) (points : PointContainer F) : KdTree F :=
  { points := points }

/-- The library operations on `KdTree`, as `updateKdTree` takes them. -/
def kdTree {F : Type} : KdTreeOps F (KdTree F) where
  clear := KdTree.clear
  build := KdTree.build

/-! ## Drawing passes -/

/-- The twelve concrete pass classes named in the `WRITE_FIT_CASE` lines. -/
inductive PassType where
  | DistanceFieldWithKdTree
  | PlaneFitField
  | SphereFitField
  | OrientedSphereFitField
  | UnorientedSphereFitField
  | BestPlaneFitField
  | BestSphereFitField
  | BestOrientedSphereFitField
  | OnePlaneFitField
  | OneSphereFitField
  | OneOrientedSphereFitField
  | DistanceFieldFromOnePoint
deriving DecidableEq, Repr

/-- An object of the forward-declared class `DrawingPass`: its dynamic type
and its own data, of a type `S` left open. -/
structure DrawingPass (S : Type) where
  dynType : PassType
  state : S
deriving DecidableEq, Repr

/-- A pointer `DrawingPass*`; `none` is the null pointer. -/
abbrev DrawingPassPtr (S : Type) := Option (DrawingPass S)

/-- The cast `dynamic_cast<FTYPE*>(p)`: null for a null pointer, the same
pointer when the object is an `FTYPE` or of a class derived from it, null
otherwise. `derives a b` says that class `a` is properly derived from `b`. -/
def dynamicCast {S : Type} (derives : PassType → PassType → Bool) (FTYPE : PassType)
    (p : DrawingPassPtr S) : DrawingPassPtr S :=
  match p with
  | none => none
  | some o => if o.dynType = FTYPE || derives o.dynType FTYPE then some o else none

/-- The constant `nbSupportedDrawingPasses`. -/
def nbSupportedDrawingPasses : Nat := 12

/-- The member `supportedDrawingPasses`, a `std::map` from name to index,
as the list of its initialisers. -/
def supportedDrawingPasses : List (String × Nat) :=
  [ ("Distance Field", 0),
    ("MLS - Plane", 1),
    ("MLS - Sphere", 2),
    ("MLS - Oriented Sphere", 3),
    ("MLS - Unoriented Sphere", 4),
    ("Best Fit - Plane", 5),
    ("Best Fit - Sphere", 6),
    ("Best Fit - Oriented Sphere", 7),
    ("One Fit - Plane", 8),
    ("One Fit - Sphere", 9),
    ("One Fit - Oriented Sphere", 10),
    ("One Point - Scale", 11) ]

/-- Key lookup in the map `supportedDrawingPasses` (`find`): the index stored
under `name`, if any. -/
def findPass (name : String) : Option Nat :=
  supportedDrawingPasses.lookup name

/-! ## The state of a `DataManager` -/

/-- A post-update closure `std::function<void()>`: it sees the container and
the tree, may rewrite the container, and acts on the outside state `W`. -/
abbrev UpdateFunction (F Tree W : Type) :=
  PointContainer F → Tree → W → PointContainer F × W

/-- The private members of `DataManager`. -/
structure State (F Tree S W : Type) where
  m_points : PointContainer F
  m_tree : Tree
  m_updateFunction : UpdateFunction F Tree W
  m_drawingPasses : Fin nbSupportedDrawingPasses → DrawingPassPtr S

/-- The default member initialiser of `m_updateFunction`, the empty lambda. -/
def defaultUpdateFunction {F Tree W : Type} : UpdateFunction F Tree W :=
  fun points _ w => (points, w)

/-- The member function `updateKdTree`: clear the tree when the container is
empty, build it from the container otherwise, then call the hook. -/
def updateKdTree {F Tree S W : Type} (K : KdTreeOps F Tree)
    (dm : State F Tree S W) (w : W) : State F Tree S W × W :=
  let tree := if dm.m_points.isEmpty then K.clear dm.m_tree
              else K.build dm.m_tree dm.m_points
  let r := dm.m_updateFunction dm.m_points tree w
  ({ dm with m_points := r.1, m_tree := tree }, r.2)

/-- The member function `setKdTreePostUpdateFunction`: store the closure. -/
def setKdTreePostUpdateFunction {F Tree S W : Type} (f : UpdateFunction F Tree W)
    (dm : State F Tree S W) (w : W) : State F Tree S W × W :=
  ({ dm with m_updateFunction := f }, w)

/-- A functor handed to `processPass`: it receives the static type of its
argument and the pointer, and acts on the outside state `W`. -/
abbrev PassFunctor (S W : Type) := PassType → DrawingPassPtr S → W → W

/-- One expansion of the macro `WRITE_FIT_CASE(ID,FTYPE)`: call the functor on
the pass fetched at `ID`, cast to `FTYPE`; the `break` leads to `return true`. -/
def WRITE_FIT_CASE {S W : Type} (derives : PassType → PassType → Bool)
    (getDrawingPass : Nat → DrawingPassPtr S) (f : PassFunctor S W) (w : W)
    (ID : Nat) (FTYPE : PassType) : Bool × W :=
  (true, f FTYPE (dynamicCast derives FTYPE (getDrawingPass ID)) w)

/-- The member template `processPass`. The overload `getDrawingPass(size_t)`
is only declared in the header; it is a parameter, read on the current
state. -/
def processPass {F Tree S W V : Type} (derives : PassType → PassType → Bool)
    (getDrawingPass : State F Tree S W → Nat → DrawingPassPtr S)
    (dm : State F Tree S W) (index : Int) (f : PassFunctor S V) (v : V) : Bool × V :=
  let fitCase := WRITE_FIT_CASE derives (getDrawingPass dm) f v
  if index = 0 then fitCase 0 .DistanceFieldWithKdTree
  else if index = 1 then fitCase 1 .PlaneFitField
  else if index = 2 then fitCase 2 .SphereFitField
  else if index = 3 then fitCase 3 .OrientedSphereFitField
  else if index = 4 then fitCase 4 .UnorientedSphereFitField
  else if index = 5 then fitCase 5 .BestPlaneFitField
  else if index = 6 then fitCase 6 .BestSphereFitField
  else if index = 7 then fitCase 7 .BestOrientedSphereFitField
  else if index = 8 then fitCase 8 .OnePlaneFitField
  else if index = 9 then fitCase 9 .OneSphereFitField
  else if index = 10 then fitCase 10 .OneOrientedSphereFitField
  else if index = 11 then fitCase 11 .DistanceFieldFromOnePoint
  else (false, v)

/-- The class column of the twelve `WRITE_FIT_CASE` lines of `processPass`,
in the order of the lines, which is the order of their case labels 0 to 11. -/
def fitCaseTypes : List PassType :=
  [ .DistanceFieldWithKdTree, .PlaneFitField, .SphereFitField, .OrientedSphereFitField,
    .UnorientedSphereFitField, .BestPlaneFitField, .BestSphereFitField,
    .BestOrientedSphereFitField, .OnePlaneFitField, .OneSphereFitField,
    .OneOrientedSphereFitField, .DistanceFieldFromOnePoint ]

/-- A functor that records each of its invocations, with the static type and
the pointer it was given, at the end of a log. -/
def recordCall {S : Type} : PassFunctor S (List (PassType × DrawingPassPtr S)) :=
  fun FTYPE p log => log ++ [(FTYPE, p)]

/-- A hook that records each of its invocations, with a tag naming the hook
and the tree it observes, at the end of a log; it leaves the container. -/
def recordUpdate {F Tree L : Type} (tag : L) : UpdateFunction F Tree (List (L × Tree)) :=
  fun points tree log => (points, log ++ [(tag, tree)])

/-- Modelled from the spec: the overload `getDrawingPass(size_t)` is declared
in the header and defined in a file that is not part of the source. Section
4.4: it returns the owned instance for that index and fails, with a null
result, for indices outside [0,11]. -/
def getDrawingPass {F Tree S W : Type} (dm : State F Tree S W) (index : Nat) :
    DrawingPassPtr S :=
  if h : index < nbSupportedDrawingPasses then dm.m_drawingPasses ⟨index, h⟩ else none

/-- Modelled from the spec: the overload `getDrawingPass(const std::string&)`
is declared in the header and defined in a file that is not part of the
source. Section 4.4: it resolves a name to its stable index via the closed
mapping and fails, with a null result, for any name outside the catalog. -/
def getDrawingPassByName {F Tree S W : Type} (dm : State F Tree S W) (name : String) :
    DrawingPassPtr S :=
  match findPass name with
  | some index => getDrawingPass dm index
  | none => none

/-- Modelled from the spec: the constructor `DataManager()` is declared in
the header and defined in a file that is not part of the source. Sections 3
and 4.4: the `DataManager` owns one instance per index for its whole lifetime,
index i holding an object of exactly the i-th class. The hook starts as the
default member initialiser; the first container, the first tree and the data
of each new pass are left open. -/
def new {F Tree S W : Type} (points : PointContainer F) (tree : Tree)
    (mkPass : PassType → S) : State F Tree S W where
  m_points := points
  m_tree := tree
  m_updateFunction := defaultUpdateFunction
  m_drawingPasses := fun i =>
    some { dynType := fitCaseTypes.get (Fin.cast rfl i),
           state := mkPass (fitCaseTypes.get (Fin.cast rfl i)) }

/-- A call on a `DataManager` that can change what its members hold:
`updateKdTree`, `setKdTreePostUpdateFunction`, a rewrite of the container
through the mutable accessor `getPointContainer()`, or a write to the data of
the owned passes through the pointers that `getDrawingPass` and `processPass`
hand out. -/
inductive Op (F Tree S W : Type) where
  | updateKdTree
  | setKdTreePostUpdateFunction (f : UpdateFunction F Tree W)
  | editPoints (g : PointContainer F → PointContainer F)
  | editPasses (g : PassType → S → S)

/-- The effect of one call on the state and on the outside state. -/
def step {F Tree S W : Type} (K : KdTreeOps F Tree) (op : Op F Tree S W)
    (s : State F Tree S W × W) : State F Tree S W × W :=
  match op with
  | .updateKdTree => updateKdTree K s.1 s.2
  | .setKdTreePostUpdateFunction f => setKdTreePostUpdateFunction f s.1 s.2
  | .editPoints g => ({ s.1 with m_points := g s.1.m_points }, s.2)
  | .editPasses g =>
      ({ s.1 with
          m_drawingPasses := fun i =>
            (s.1.m_drawingPasses i).map (fun o => { o with state := g o.dynType o.state }) },
        s.2)

/-- The effect of a sequence of calls, first call first. -/
def run {F Tree S W : Type} (K : KdTreeOps F Tree) (ops : List (Op F Tree S W))
    (s : State F Tree S W × W) : State F Tree S W × W :=
  ops.foldl (fun s op => step K op s) s

/-! ## Concrete instances used to exercise the theorems -/

/-- A state with three points, a stale one-point tree and a hook that counts
its calls. -/
def sampleState : State Int (KdTree Int) Nat Nat where
  m_points := [⟨0, 0, 0⟩, ⟨1, 0, 0⟩, ⟨2, 0, 0⟩]
  m_tree := { points := [⟨7, 7, 7⟩] }
  m_updateFunction := fun points _ n => (points, n + 1)
  m_drawingPasses := fun _ => none

/-- The same three points with another stale tree and the default hook. -/
def sampleState2 : State Int (KdTree Int) Nat Nat where
  m_points := [⟨0, 0, 0⟩, ⟨1, 0, 0⟩, ⟨2, 0, 0⟩]
  m_tree := { points := [⟨9, 9, 9⟩, ⟨8, 8, 8⟩] }
  m_updateFunction := defaultUpdateFunction
  m_drawingPasses := fun _ => none

/-! ## Dispatch: `processPass` -/

theorem processPass_in_range {F Tree S W V : Type}
    (derives : PassType → PassType → Bool)
    (getDrawingPass : State F Tree S W → Nat → DrawingPassPtr S)
    (dm : State F Tree S W) (f : PassFunctor S V) (v : V) (index : Int)
    (h0 : 0 ≤ index) (h1 : index ≤ 11) :
    ∃ FTYPE, fitCaseTypes[index.toNat]? = some FTYPE ∧
      processPass derives getDrawingPass dm index f v
        = (true, f FTYPE (dynamicCast derives FTYPE (getDrawingPass dm index.toNat)) v) := by
  interval_cases index <;> exact ⟨_, rfl, rfl⟩

theorem processPass_out_of_range {F Tree S W V : Type}
    (derives : PassType → PassType → Bool)
    (getDrawingPass : State F Tree S W → Nat → DrawingPassPtr S)
    (dm : State F Tree S W) (f : PassFunctor S V) (v : V) (index : Int)
    (h : index < 0 ∨ 11 < index) :
    processPass derives getDrawingPass dm index f v = (false, v) := by
  unfold processPass
  iterate 12 rw [if_neg (by omega)]

theorem processPass_flag {F Tree S W V : Type}
    (derives : PassType → PassType → Bool)
    (getDrawingPass : State F Tree S W → Nat → DrawingPassPtr S)
    (dm : State F Tree S W) (f : PassFunctor S V) (v : V) (index : Int) :
    (processPass derives getDrawingPass dm index f v).1 = decide (0 ≤ index ∧ index ≤ 11) := by
  by_cases h : 0 ≤ index ∧ index ≤ 11
  · obtain ⟨T, -, hT⟩ := processPass_in_range derives getDrawingPass dm f v index h.1 h.2
    rw [hT]; simp [h]
  · rw [processPass_out_of_range derives getDrawingPass dm f v index (by omega)]
    simp [h]

/-- C1. `processPass` returns true exactly for the indices 0 to 11, so false
for -1 and for 12, and the returned flag is the same whatever the functor,
the outside state, the `DataManager` state and the pass lookup are. -/
theorem processPass_returns_true_iff {F Tree S W V F' Tree' S' W' V' : Type}
    (derives derives' : PassType → PassType → Bool)
    (getDrawingPass : State F Tree S W → Nat → DrawingPassPtr S)
    (getDrawingPass' : State F' Tree' S' W' → Nat → DrawingPassPtr S')
    (dm : State F Tree S W) (dm' : State F' Tree' S' W')
    (f : PassFunctor S V) (f' : PassFunctor S' V') (v : V) (v' : V') (index : Int) :
    ((processPass derives getDrawingPass dm index f v).1 = true ↔ (0 ≤ index ∧ index ≤ 11))
    ∧ (processPass derives getDrawingPass dm (-1) f v).1 = false
    ∧ (processPass derives getDrawingPass dm 12 f v).1 = false
    ∧ (processPass derives getDrawingPass dm index f v).1
        = (processPass derives' getDrawingPass' dm' index f' v').1 := by
  simp only [processPass_flag]
  simp

/-- C2. For an index from 0 to 11 `processPass` applies the functor once: the
outside state it leaves is the functor's effect on the state it found, and a
recording functor has logged exactly one call. For an index outside that
range the outside state is untouched and nothing is logged. -/
theorem processPass_invokes_handler_once {F Tree S W V : Type}
    (derives : PassType → PassType → Bool)
    (getDrawingPass : State F Tree S W → Nat → DrawingPassPtr S)
    (dm : State F Tree S W) (f : PassFunctor S V) (v : V)
    (log : List (PassType × DrawingPassPtr S)) (index : Int) :
    (0 ≤ index ∧ index ≤ 11 →
      ∃ FTYPE, fitCaseTypes[index.toNat]? = some FTYPE ∧
        (processPass derives getDrawingPass dm index f v).2
          = f FTYPE (dynamicCast derives FTYPE (getDrawingPass dm index.toNat)) v ∧
        (processPass derives getDrawingPass dm index recordCall log).2
          = log ++ [(FTYPE, dynamicCast derives FTYPE (getDrawingPass dm index.toNat))] ∧
        ((processPass derives getDrawingPass dm index recordCall log).2).length
          = log.length + 1)
    ∧ (index < 0 ∨ 11 < index →
        (processPass derives getDrawingPass dm index f v).2 = v ∧
        (processPass derives getDrawingPass dm index recordCall log).2 = log ∧
        (processPass derives getDrawingPass dm (-1) recordCall log).2 = log ∧
        (processPass derives getDrawingPass dm 12 recordCall log).2 = log) := by
  constructor
  · rintro ⟨h0, h1⟩
    obtain ⟨T, hT, hf⟩ := processPass_in_range derives getDrawingPass dm f v index h0 h1
    obtain ⟨T', hT', hr⟩ :=
      processPass_in_range derives getDrawingPass dm recordCall log index h0 h1
    have hTT : T' = T := by rw [hT] at hT'; exact (Option.some.inj hT').symm
    subst hTT
    refine ⟨T', hT, ?_, ?_, ?_⟩
    · rw [hf]
    · rw [hr]; rfl
    · rw [hr]; simp [recordCall]
  · intro h
    rw [processPass_out_of_range derives getDrawingPass dm f v index h,
      processPass_out_of_range derives getDrawingPass dm recordCall log index h,
      processPass_out_of_range derives getDrawingPass dm recordCall log (-1) (by omega),
      processPass_out_of_range derives getDrawingPass dm recordCall log 12 (by omega)]
    exact ⟨rfl, rfl, rfl, rfl⟩

/-! ## The catalog `supportedDrawingPasses` -/

theorem findPass_mem {name : String} {index : Nat} (h : findPass name = some index) :
    (name, index) ∈ supportedDrawingPasses := by
  unfold findPass at h
  obtain ⟨l₁, l₂, hl, -⟩ := List.lookup_eq_some_iff.mp h
  rw [hl]
  simp

theorem index_le_of_mem {e : String × Nat} (h : e ∈ supportedDrawingPasses) : e.2 ≤ 11 := by
  revert e
  decide

theorem findPass_none_of_not_key {name : String}
    (h : name ∉ supportedDrawingPasses.map Prod.fst) : findPass name = none := by
  unfold findPass
  rw [List.lookup_eq_none_iff]
  intro e he
  have hne : name ≠ e.1 := fun heq => h (heq ▸ List.mem_map_of_mem Prod.fst he)
  simpa using hne

/-- C3, as stated: the twelve names written with a bare hyphen are not all
keys of the catalog with the stated indices; already `MLS-Plane` is no key. -/
theorem catalog_bare_hyphen_names_fail :
    ¬ (findPass "Distance Field" = some 0 ∧ findPass "MLS-Plane" = some 1
      ∧ findPass "MLS-Sphere" = some 2 ∧ findPass "MLS-Oriented Sphere" = some 3
      ∧ findPass "MLS-Unoriented Sphere" = some 4 ∧ findPass "Best Fit-Plane" = some 5
      ∧ findPass "Best Fit-Sphere" = some 6 ∧ findPass "Best Fit-Oriented Sphere" = some 7
      ∧ findPass "One Fit-Plane" = some 8 ∧ findPass "One Fit-Sphere" = some 9
      ∧ findPass "One Fit-Oriented Sphere" = some 10 ∧ findPass "One Point-Scale" = some 11)
    ∧ findPass "MLS-Plane" = none := by
  decide

/-- C3, amended: looking up each of the twelve names as the source spells
them, with a blank on either side of the hyphen, yields the stated index. -/
theorem catalog_names_to_indices :
    findPass "Distance Field" = some 0 ∧ findPass "MLS - Plane" = some 1
    ∧ findPass "MLS - Sphere" = some 2 ∧ findPass "MLS - Oriented Sphere" = some 3
    ∧ findPass "MLS - Unoriented Sphere" = some 4 ∧ findPass "Best Fit - Plane" = some 5
    ∧ findPass "Best Fit - Sphere" = some 6 ∧ findPass "Best Fit - Oriented Sphere" = some 7
    ∧ findPass "One Fit - Plane" = some 8 ∧ findPass "One Fit - Sphere" = some 9
    ∧ findPass "One Fit - Oriented Sphere" = some 10
    ∧ findPass "One Point - Scale" = some 11 := by
  decide

/-- C4. The catalog is a bijection between its names and the indices 0 to 11:
it has `nbSupportedDrawingPasses` = 12 entries under pairwise distinct names,
every index is at most 11, distinct names carry distinct indices, every index
from 0 to 11 is carried by a name, and lookup by name returns exactly the
entries. -/
theorem supportedDrawingPasses_bijection :
    supportedDrawingPasses.length = nbSupportedDrawingPasses
    ∧ nbSupportedDrawingPasses = 12
    ∧ (supportedDrawingPasses.map Prod.fst).Nodup
    ∧ (∀ e ∈ supportedDrawingPasses, e.2 ≤ 11)
    ∧ (∀ e ∈ supportedDrawingPasses, ∀ e' ∈ supportedDrawingPasses,
        e.1 ≠ e'.1 → e.2 ≠ e'.2)
    ∧ (∀ i, i ≤ 11 → ∃ e ∈ supportedDrawingPasses, e.2 = i)
    ∧ (∀ e ∈ supportedDrawingPasses, findPass e.1 = some e.2) := by
  refine ⟨rfl, rfl, by decide, by decide, by decide, ?_, by decide⟩
  intro i hi
  interval_cases i <;> decide

/-- C9. Names, indices and classes in lock-step. For every index i from 0
to 11, `processPass` hands the functor the pass fetched at that same i, cast
to the i-th class of the fixed list, and it hands over that very object when
the object is of the i-th class; the twelve classes are pairwise distinct; the
indices on which `processPass` returns true are exactly the index values of
the catalog; and each catalog name sits at the index of the class it names. -/
theorem processPass_lockstep {F Tree S W V : Type}
    (derives : PassType → PassType → Bool)
    (getDrawingPass : State F Tree S W → Nat → DrawingPassPtr S)
    (dm : State F Tree S W) (f : PassFunctor S V) (v : V) :
    (∀ i : Nat, i < nbSupportedDrawingPasses →
      ∃ FTYPE, fitCaseTypes[i]? = some FTYPE ∧
        processPass derives getDrawingPass dm (i : Int) f v
          = (true, f FTYPE (dynamicCast derives FTYPE (getDrawingPass dm i)) v) ∧
        (∀ o, getDrawingPass dm i = some o → o.dynType = FTYPE →
          processPass derives getDrawingPass dm (i : Int) f v = (true, f FTYPE (some o) v)))
    ∧ fitCaseTypes =
        [ PassType.DistanceFieldWithKdTree, PassType.PlaneFitField, PassType.SphereFitField,
          PassType.OrientedSphereFitField, PassType.UnorientedSphereFitField,
          PassType.BestPlaneFitField, PassType.BestSphereFitField,
          PassType.BestOrientedSphereFitField, PassType.OnePlaneFitField,
          PassType.OneSphereFitField, PassType.OneOrientedSphereFitField,
          PassType.DistanceFieldFromOnePoint ]
    ∧ fitCaseTypes.Nodup
    ∧ (∀ index : Int, (processPass derives getDrawingPass dm index f v).1 = true
        ↔ ∃ e ∈ supportedDrawingPasses, (e.2 : Int) = index)
    ∧ supportedDrawingPasses.map (fun e => (e.1, e.2, fitCaseTypes[e.2]?)) =
        [ ("Distance Field", 0, some PassType.DistanceFieldWithKdTree),
          ("MLS - Plane", 1, some PassType.PlaneFitField),
          ("MLS - Sphere", 2, some PassType.SphereFitField),
          ("MLS - Oriented Sphere", 3, some PassType.OrientedSphereFitField),
          ("MLS - Unoriented Sphere", 4, some PassType.UnorientedSphereFitField),
          ("Best Fit - Plane", 5, some PassType.BestPlaneFitField),
          ("Best Fit - Sphere", 6, some PassType.BestSphereFitField),
          ("Best Fit - Oriented Sphere", 7, some PassType.BestOrientedSphereFitField),
          ("One Fit - Plane", 8, some PassType.OnePlaneFitField),
          ("One Fit - Sphere", 9, some PassType.OneSphereFitField),
          ("One Fit - Oriented Sphere", 10, some PassType.OneOrientedSphereFitField),
          ("One Point - Scale", 11, some PassType.DistanceFieldFromOnePoint) ] := by
  refine ⟨?_, rfl, by decide, ?_, rfl⟩
  · intro i hi
    have hi' : (i : Int) ≤ 11 := by unfold nbSupportedDrawingPasses at hi; omega
    obtain ⟨T, hT, hp⟩ :=
      processPass_in_range derives getDrawingPass dm f v (i : Int) (by omega) hi'
    rw [Int.toNat_ofNat] at hT hp
    refine ⟨T, hT, hp, ?_⟩
    intro o ho hty
    rw [hp, ho]
    simp [dynamicCast, hty]
  · intro index
    rw [processPass_flag]
    constructor
    · intro h
      have h' : 0 ≤ index ∧ index ≤ 11 := by simpa using h
      obtain ⟨h0, h1⟩ := h'
      interval_cases index <;> decide
    · rintro ⟨e, he, rfl⟩
      have := index_le_of_mem he
      simp
      omega

/-! ## Rebuilding the index: `updateKdTree` -/

theorem updateKdTree_tree_of_empty {F Tree S W : Type} (K : KdTreeOps F Tree)
    (dm : State F Tree S W) (w : W) (h : dm.m_points = []) :
    (updateKdTree K dm w).1.m_tree = K.clear dm.m_tree := by
  simp [updateKdTree, h]

theorem updateKdTree_tree_of_nonempty {F Tree S W : Type} (K : KdTreeOps F Tree)
    (dm : State F Tree S W) (w : W) (h : dm.m_points ≠ []) :
    (updateKdTree K dm w).1.m_tree = K.build dm.m_tree dm.m_points := by
  simp [updateKdTree, h]

theorem updateKdTree_eq {F Tree S W : Type} (K : KdTreeOps F Tree)
    (dm : State F Tree S W) (w : W) :
    updateKdTree K dm w =
      ({ dm with
          m_points := (dm.m_updateFunction dm.m_points (updateKdTree K dm w).1.m_tree w).1,
          m_tree := (updateKdTree K dm w).1.m_tree },
        (dm.m_updateFunction dm.m_points (updateKdTree K dm w).1.m_tree w).2) := rfl

theorem updateKdTree_tree_of_contract {F Tree S W S' W' : Type} (K : KdTreeOps F Tree)
    (hclear : ∀ t t', K.clear t = K.clear t')
    (hbuild : ∀ t t' points, K.build t points = K.build t' points)
    (dm : State F Tree S W) (dm' : State F Tree S' W') (w : W) (w' : W')
    (hpoints : dm.m_points = dm'.m_points) :
    (dm.m_points = [] → ∀ t, (updateKdTree K dm w).1.m_tree = K.clear t)
    ∧ (dm.m_points ≠ [] → ∀ t, (updateKdTree K dm w).1.m_tree = K.build t dm.m_points)
    ∧ (updateKdTree K dm w).1.m_tree = (updateKdTree K dm' w').1.m_tree := by
  refine ⟨?_, ?_, ?_⟩
  · intro h t
    rw [updateKdTree_tree_of_empty K dm w h]
    exact hclear _ _
  · intro h t
    rw [updateKdTree_tree_of_nonempty K dm w h]
    exact hbuild _ _ _
  · by_cases h : dm.m_points = []
    · rw [updateKdTree_tree_of_empty K dm w h,
        updateKdTree_tree_of_empty K dm' w' (hpoints ▸ h)]
      exact hclear _ _
    · rw [updateKdTree_tree_of_nonempty K dm w h,
        updateKdTree_tree_of_nonempty K dm' w' (hpoints ▸ h), hpoints]
      exact hbuild _ _ _

theorem kdTree_clear_forgets {F : Type} (t t' : KdTree F) :
    (kdTree : KdTreeOps F (KdTree F)).clear t = kdTree.clear t' := rfl

theorem kdTree_build_forgets {F : Type} (t t' : KdTree F) (points : PointContainer F) :
    (kdTree : KdTreeOps F (KdTree F)).build t points = kdTree.build t' points := rfl

/-- C5. After `updateKdTree` the tree is settled by the container as it was
at the call: it is the cleared tree when the container is empty and the tree
built from exactly that container otherwise, whatever tree was there before;
it holds the points of the container and nothing else; and two states with
equal containers end with equal trees, whatever their earlier trees, hooks
and outside states. -/
theorem updateKdTree_index_from_container {F S W S' W' : Type}
    (dm : State F (KdTree F) S W) (dm' : State F (KdTree F) S' W') (w : W) (w' : W')
    (hpoints : dm.m_points = dm'.m_points) :
    (dm.m_points = [] → ∀ t, (updateKdTree kdTree dm w).1.m_tree = KdTree.clear t)
    ∧ (dm.m_points ≠ [] →
        ∀ t, (updateKdTree kdTree dm w).1.m_tree = KdTree.build t dm.m_points)
    ∧ (updateKdTree kdTree dm w).1.m_tree.points = dm.m_points
    ∧ (updateKdTree kdTree dm w).1.m_tree = (updateKdTree kdTree dm' w').1.m_tree := by
  obtain ⟨hempty, hfull, hsame⟩ :=
    updateKdTree_tree_of_contract kdTree kdTree_clear_forgets kdTree_build_forgets
      dm dm' w w' hpoints
  refine ⟨hempty, hfull, ?_, hsame⟩
  by_cases h : dm.m_points = []
  · rw [hempty h dm.m_tree, h]
    rfl
  · rw [hfull h dm.m_tree]
    rfl

/-- C5, exercised: two states with the same three points and different stale
trees end with the same tree, which holds exactly the three points. -/
theorem updateKdTree_index_from_container_witness :
    sampleState.m_points = sampleState2.m_points
    ∧ sampleState.m_tree ≠ sampleState2.m_tree
    ∧ (updateKdTree kdTree sampleState 0).1.m_tree.points
        = [⟨0, 0, 0⟩, ⟨1, 0, 0⟩, ⟨2, 0, 0⟩]
    ∧ (updateKdTree kdTree sampleState 0).1.m_tree
        = (updateKdTree kdTree sampleState2 5).1.m_tree :=
  ⟨rfl, by decide,
    (updateKdTree_index_from_container sampleState sampleState2 0 5 rfl).2.2⟩

/-- C6. Every `updateKdTree` runs the configured hook once, in either branch,
on the tree just cleared or rebuilt: the container and the outside state it
leaves are the hook's result on the container, the new tree and the outside
state found, and a recording hook in the slot has logged exactly one call,
showing the new tree. -/
theorem updateKdTree_invokes_hook_once {F Tree S W L : Type} (K : KdTreeOps F Tree)
    (dm : State F Tree S W) (w : W) (tag : L) (log : List (L × Tree)) :
    ∃ tree,
      (dm.m_points = [] → tree = K.clear dm.m_tree)
      ∧ (dm.m_points ≠ [] → tree = K.build dm.m_tree dm.m_points)
      ∧ (updateKdTree K dm w).1.m_tree = tree
      ∧ (updateKdTree K dm w).2 = (dm.m_updateFunction dm.m_points tree w).2
      ∧ (updateKdTree K dm w).1.m_points = (dm.m_updateFunction dm.m_points tree w).1
      ∧ (updateKdTree K
          ({ m_points := dm.m_points, m_tree := dm.m_tree,
             m_updateFunction := recordUpdate tag,
             m_drawingPasses := dm.m_drawingPasses } : State F Tree S (List (L × Tree)))
          log).2 = log ++ [(tag, tree)] := by
  refine ⟨(updateKdTree K dm w).1.m_tree, ?_, ?_, rfl, rfl, rfl, rfl⟩
  · exact updateKdTree_tree_of_empty K dm w
  · exact updateKdTree_tree_of_nonempty K dm w

/-- C7. The hook is one replaceable slot whose default does nothing: with
the default in the slot `updateKdTree` leaves the container and the outside
state as they were; after setting `f` and then `g` the slot holds `g`, nothing
has run, and the next `updateKdTree` has the effect of `g` alone; with two
recording hooks only the tag of the second is logged, once. -/
theorem setKdTreePostUpdateFunction_replaces {F Tree S W L : Type} (K : KdTreeOps F Tree)
    (dm : State F Tree S W) (w : W) (f g : UpdateFunction F Tree W)
    (dmr : State F Tree S (List (L × Tree))) (tagf tagg : L) (log : List (L × Tree)) :
    ((updateKdTree K { dm with m_updateFunction := defaultUpdateFunction } w).2 = w
      ∧ (updateKdTree K { dm with m_updateFunction := defaultUpdateFunction } w).1.m_points
          = dm.m_points)
    ∧ ((setKdTreePostUpdateFunction g (setKdTreePostUpdateFunction f dm w).1
          (setKdTreePostUpdateFunction f dm w).2)
        = ({ dm with m_updateFunction := g }, w))
    ∧ (∃ tree,
        (dm.m_points = [] → tree = K.clear dm.m_tree)
        ∧ (dm.m_points ≠ [] → tree = K.build dm.m_tree dm.m_points)
        ∧ updateKdTree K
            (setKdTreePostUpdateFunction g (setKdTreePostUpdateFunction f dm w).1
              (setKdTreePostUpdateFunction f dm w).2).1
            (setKdTreePostUpdateFunction g (setKdTreePostUpdateFunction f dm w).1
              (setKdTreePostUpdateFunction f dm w).2).2
          = ({ m_points := (g dm.m_points tree w).1, m_tree := tree,
               m_updateFunction := g, m_drawingPasses := dm.m_drawingPasses },
             (g dm.m_points tree w).2))
    ∧ (∃ tree,
        (dmr.m_points = [] → tree = K.clear dmr.m_tree)
        ∧ (dmr.m_points ≠ [] → tree = K.build dmr.m_tree dmr.m_points)
        ∧ (updateKdTree K
            (setKdTreePostUpdateFunction (recordUpdate tagg)
              (setKdTreePostUpdateFunction (recordUpdate tagf) dmr log).1
              (setKdTreePostUpdateFunction (recordUpdate tagf) dmr log).2).1
            (setKdTreePostUpdateFunction (recordUpdate tagg)
              (setKdTreePostUpdateFunction (recordUpdate tagf) dmr log).1
              (setKdTreePostUpdateFunction (recordUpdate tagf) dmr log).2).2).2
          = log ++ [(tagg, tree)]) := by
  refine ⟨⟨rfl, rfl⟩, rfl, ?_, ?_⟩
  · refine ⟨(updateKdTree K dm w).1.m_tree, ?_, ?_, rfl⟩
    · exact updateKdTree_tree_of_empty K dm w
    · exact updateKdTree_tree_of_nonempty K dm w
  refine ⟨(updateKdTree K dmr log).1.m_tree, ?_, ?_, rfl⟩
  · exact updateKdTree_tree_of_empty K dmr log
  · exact updateKdTree_tree_of_nonempty K dmr log

/-- C10. Frame of the two operations. When the hook leaves the container it
is given, `updateKdTree` leaves the container, the hook slot and the registry
of passes as they were. `setKdTreePostUpdateFunction` changes the hook slot
only: container, tree and registry stay, and the outside state is untouched,
so neither the new closure nor the old one has run. -/
theorem updateKdTree_frame {F Tree S W : Type} (K : KdTreeOps F Tree)
    (dm : State F Tree S W) (w : W) (f : UpdateFunction F Tree W)
    (hframe : ∀ points tree w0, (dm.m_updateFunction points tree w0).1 = points) :
    ((updateKdTree K dm w).1.m_points = dm.m_points
      ∧ ((updateKdTree K dm w).1.m_points).length = dm.m_points.length
      ∧ (updateKdTree K dm w).1.m_updateFunction = dm.m_updateFunction
      ∧ (updateKdTree K dm w).1.m_drawingPasses = dm.m_drawingPasses)
    ∧ ((setKdTreePostUpdateFunction f dm w).1.m_points = dm.m_points
      ∧ (setKdTreePostUpdateFunction f dm w).1.m_tree = dm.m_tree
      ∧ (setKdTreePostUpdateFunction f dm w).1.m_drawingPasses = dm.m_drawingPasses
      ∧ (setKdTreePostUpdateFunction f dm w).1.m_updateFunction = f
      ∧ (setKdTreePostUpdateFunction f dm w).2 = w) := by
  have hp : (updateKdTree K dm w).1.m_points = dm.m_points := by
    rw [updateKdTree_eq K dm w]
    exact hframe _ _ _
  exact ⟨⟨hp, by rw [hp], rfl, rfl⟩, rfl, rfl, rfl, rfl, rfl⟩

/-- C10, exercised on the sample state, whose hook only counts its calls. -/
theorem updateKdTree_frame_witness :
    (∀ points tree w0, (sampleState.m_updateFunction points tree w0).1 = points)
    ∧ (updateKdTree kdTree sampleState 0).1.m_points
        = [⟨0, 0, 0⟩, ⟨1, 0, 0⟩, ⟨2, 0, 0⟩]
    ∧ (setKdTreePostUpdateFunction defaultUpdateFunction sampleState 0).2 = 0 :=
  ⟨fun _ _ _ => rfl,
    (updateKdTree_frame kdTree sampleState 0 defaultUpdateFunction (fun _ _ _ => rfl)).1.1,
    (updateKdTree_frame kdTree sampleState 0 defaultUpdateFunction
      (fun _ _ _ => rfl)).2.2.2.2.2⟩

/-! ## Fetching a pass: `getDrawingPass` -/

theorem getDrawingPass_of_owned {F Tree S W : Type} (dm : State F Tree S W)
    (hown : ∀ i, (dm.m_drawingPasses i).isSome = true) :
    (∀ e ∈ supportedDrawingPasses,
        (getDrawingPassByName dm e.1).isSome = true
        ∧ (getDrawingPass dm e.2).isSome = true
        ∧ getDrawingPassByName dm e.1 = getDrawingPass dm e.2)
    ∧ (∀ index, index ≤ 11 → (getDrawingPass dm index).isSome = true)
    ∧ (∀ name, name ∉ supportedDrawingPasses.map Prod.fst →
        getDrawingPassByName dm name = none)
    ∧ (∀ index, 11 < index → getDrawingPass dm index = none)
    ∧ getDrawingPassByName dm "Unknown" = none
    ∧ getDrawingPass dm 12 = none := by
  have hidx : ∀ index, index ≤ 11 → (getDrawingPass dm index).isSome = true := by
    intro index h
    have hlt : index < nbSupportedDrawingPasses := by
      unfold nbSupportedDrawingPasses; omega
    simp only [getDrawingPass, hlt, dite_true]
    exact hown _
  have hout : ∀ index, 11 < index → getDrawingPass dm index = none := by
    intro index h
    have hlt : ¬ index < nbSupportedDrawingPasses := by
      unfold nbSupportedDrawingPasses; omega
    simp only [getDrawingPass, hlt, dite_false]
  have hname : ∀ name, name ∉ supportedDrawingPasses.map Prod.fst →
      getDrawingPassByName dm name = none := by
    intro name h
    simp only [getDrawingPassByName, findPass_none_of_not_key h]
  refine ⟨?_, hidx, hname, hout, hname _ (by decide), hout 12 (by omega)⟩
  intro e he
  have hfind : findPass e.1 = some e.2 := by
    revert e
    decide
  have hbyname : getDrawingPassByName dm e.1 = getDrawingPass dm e.2 := by
    simp only [getDrawingPassByName, hfind]
  exact ⟨hbyname ▸ hidx _ (index_le_of_mem he), hidx _ (index_le_of_mem he), hbyname⟩

theorem step_owned {F Tree S W : Type} (K : KdTreeOps F Tree)
    (op : Op F Tree S W) (s : State F Tree S W × W)
    (h : ∀ i, ∃ o, s.1.m_drawingPasses i = some o
      ∧ o.dynType = fitCaseTypes.get (Fin.cast rfl i)) :
    ∀ i, ∃ o, (step K op s).1.m_drawingPasses i = some o
      ∧ o.dynType = fitCaseTypes.get (Fin.cast rfl i) := by
  intro i
  obtain ⟨o, ho, hty⟩ := h i
  cases op with
  | updateKdTree => exact ⟨o, ho, hty⟩
  | setKdTreePostUpdateFunction f => exact ⟨o, ho, hty⟩
  | editPoints g => exact ⟨o, ho, hty⟩
  | editPasses g =>
    refine ⟨{ o with state := g o.dynType o.state }, ?_, hty⟩
    simp only [step, ho, Option.map_some']

theorem run_owned {F Tree S W : Type} (K : KdTreeOps F Tree)
    (ops : List (Op F Tree S W)) (s : State F Tree S W × W)
    (h : ∀ i, ∃ o, s.1.m_drawingPasses i = some o
      ∧ o.dynType = fitCaseTypes.get (Fin.cast rfl i)) :
    ∀ i, ∃ o, (run K ops s).1.m_drawingPasses i = some o
      ∧ o.dynType = fitCaseTypes.get (Fin.cast rfl i) := by
  induction ops generalizing s with
  | nil => exact h
  | cons op ops ih => exact ih (step K op s) (step_owned K op s h)

/-- C8. On every `DataManager`, as constructed and after any sequence of
rebuilds, hook registrations, container rewrites and writes to the data of
its passes, `getDrawingPass` gives a non-null result for every catalog entry,
by name and by index, the same instance either way, and for every index from
0 to 11 an object of the class of that index; it gives null for every name
that is no key of the catalog, such as `Unknown`, and for every index above
11, such as 12. -/
theorem getDrawingPass_valid_iff_in_catalog {F Tree S W : Type} (K : KdTreeOps F Tree)
    (points : PointContainer F) (tree : Tree) (mkPass : PassType → S) (w : W)
    (ops : List (Op F Tree S W)) :
    (∀ e ∈ supportedDrawingPasses,
        (getDrawingPassByName (run K ops (new points tree mkPass, w)).1 e.1).isSome = true
        ∧ (getDrawingPass (run K ops (new points tree mkPass, w)).1 e.2).isSome = true
        ∧ getDrawingPassByName (run K ops (new points tree mkPass, w)).1 e.1
            = getDrawingPass (run K ops (new points tree mkPass, w)).1 e.2)
    ∧ (∀ index, index ≤ 11 →
        ∃ o, getDrawingPass (run K ops (new points tree mkPass, w)).1 index = some o
          ∧ fitCaseTypes[index]? = some o.dynType)
    ∧ (∀ name, name ∉ supportedDrawingPasses.map Prod.fst →
        getDrawingPassByName (run K ops (new points tree mkPass, w)).1 name = none)
    ∧ (∀ index, 11 < index →
        getDrawingPass (run K ops (new points tree mkPass, w)).1 index = none)
    ∧ getDrawingPassByName (run K ops (new points tree mkPass, w)).1 "Unknown" = none
    ∧ getDrawingPass (run K ops (new points tree mkPass, w)).1 12 = none := by
  have hinv := run_owned K ops (new points tree mkPass, w) (fun i => ⟨_, rfl, rfl⟩)
  have hown : ∀ i, ((run K ops (new points tree mkPass, w)).1.m_drawingPasses i).isSome
      = true := by
    intro i
    obtain ⟨o, ho, -⟩ := hinv i
    rw [ho]
    rfl
  obtain ⟨hcat, -, hname, hout, hunknown, htwelve⟩ :=
    getDrawingPass_of_owned (run K ops (new points tree mkPass, w)).1 hown
  refine ⟨hcat, ?_, hname, hout, hunknown, htwelve⟩
  intro index h
  have hlt : index < nbSupportedDrawingPasses := by
    unfold nbSupportedDrawingPasses; omega
  obtain ⟨o, ho, hty⟩ := hinv ⟨index, hlt⟩
  refine ⟨o, ?_, ?_⟩
  · simp only [getDrawingPass, hlt, dite_true, ho]
  · have hlen : index < fitCaseTypes.length := hlt
    rw [List.getElem?_eq_getElem hlen, hty]
    rfl

end DataManager
